import Mathlib

set_option maxRecDepth 8000

/-!
Verification of the path-bounds decider of `modules/planning/tasks/deciders/
path_bounds_decider.h`. The repository ships only the class declaration
(header); every operation body below is therefore modelled from the
specification's description of that operation, over exact rational arithmetic
in place of `double`.
-/

namespace PathBoundsDecider

/-- A station of the path boundary, mirroring the C++
`std::tuple<double, double, double>` entries `(s, l_min, l_max)`. -/
structure Station where
  s : ℚ
  lMin : ℚ
  lMax : ℚ
deriving Repr, DecidableEq

/-- Modelled from the spec: `ADCFrenetState` `(s, s_dot, l, l_dot, lane_width)`,
the ego snapshot in Frenet coordinates (the source keeps these as the member
scalars `adc_frenet_s_`, `adc_frenet_sd_`, `adc_frenet_l_`, `adc_frenet_ld_`,
`adc_lane_width_`). -/
structure ADCFrenetState where
  s : ℚ
  sDot : ℚ
  l : ℚ
  lDot : ℚ
  laneWidth : ℚ
deriving Repr, DecidableEq

/-- Modelled from the spec: `ObstacleFootprint`
`(obstacle_id, s_start, s_end, l_min, l_max)`, a static obstacle's projection
into Frenet space. -/
structure ObstacleFootprint where
  id : String
  sStart : ℚ
  sEnd : ℚ
  lMin : ℚ
  lMax : ℚ
deriving Repr, DecidableEq

/-- A sweep event, mirroring the C++
`std::tuple<int, double, double, double, std::string>`
`(is_start, s, l_min, l_max, obstacle_id)`; the extra `sEnd` field models the
`obs_id_to_details` lookup of the obstacle's exit station that the engine
performs when an Enter event is processed. -/
structure SweepEvent where
  isEnter : Bool
  s : ℚ
  lMin : ℚ
  lMax : ℚ
  id : String
  sEnd : ℚ
deriving Repr, DecidableEq

/-- The lane-borrow variant of the header (`LaneBorrowInfo`). -/
inductive LaneBorrowInfo where
  | LEFT_BORROW
  | NO_BORROW
  | RIGHT_BORROW
deriving Repr, DecidableEq

/-- Modelled from the spec: `DeciderOutcome` is either a success carrying the
boundary and the (possibly empty) blocking obstacle id, or a failure carrying a
diagnostic string. -/
inductive DeciderOutcome where
  | success (bounds : List Station) (blockingId : String)
  | failure (reason : String)
deriving Repr, DecidableEq

/-- The private member fields declared at the bottom of
`path_bounds_decider.h` (lines 156-163). -/
def pathBoundsDeciderMemberFields : List String :=
  ["blocking_obstacle_id_", "adc_frenet_s_", "adc_frenet_sd_",
   "adc_frenet_l_", "adc_frenet_ld_", "adc_lane_width_", "adc_lane_info_"]

/-- The station value written by `UpdatePathBoundaryAndCenterLine`:
`(s, right_bound, left_bound)`, i.e. `l_min = right_bound` and
`l_max = left_bound`. -/
def updateStation (s leftBound rightBound : ℚ) : Station :=
  ⟨s, rightBound, leftBound⟩

/-- Modelled from the spec: `UpdatePathBoundaryAndCenterLine` (body not in
src). Writes `boundary[idx] = (s, right_bound, left_bound)`, recomputes
`center_line = (l_min + l_max) / 2`, and returns `false` iff
`left_bound < right_bound`. -/
def updatePathBoundaryAndCenterLine (idx : ℕ) (leftBound rightBound : ℚ)
    (b : List Station) (_center : ℚ) : List Station × ℚ × Bool :=
  let s := (b.getD idx ⟨0, 0, 0⟩).s
  (b.set idx (updateStation s leftBound rightBound),
   (rightBound + leftBound) / 2,
   decide (rightBound ≤ leftBound))

/-- Modelled from the spec: `TrimPathBounds` (body not in src). Truncates the
boundary to length `blocked_idx`, discarding all stations from the blockage
point onward. -/
def trimPathBounds (blockedIdx : ℕ) (b : List Station) : List Station :=
  b.take blockedIdx

/-- Whether an obstacle footprint (given by the lateral extent of a sweep
event) overlaps the current lateral interval `[lm, lM]`. -/
def overlapsInterval (lm lM : ℚ) (e : SweepEvent) : Bool :=
  decide (lm ≤ e.lMax) && decide (e.lMin ≤ lM)

/-- All left/right assignments for `n` obstacles; `true` means the ego passes
on the left of the obstacle (the corridor stays left of it). -/
def allCombos : ℕ → List (List Bool)
  | 0 => [[]]
  | n + 1 => (allCombos n).map (true :: ·) ++ (allCombos n).map (false :: ·)

/-- Residual interval after subtracting each obstacle's lateral footprint on
its assigned side: passing left raises `l_min` to the obstacle's `l_max`,
passing right lowers `l_max` to the obstacle's `l_min`. -/
def applyCombo (lm lM : ℚ) : List SweepEvent → List Bool → ℚ × ℚ
  | [], _ => (lm, lM)
  | _ :: _, [] => (lm, lM)
  | e :: es, c :: cs =>
      if c then applyCombo (max lm e.lMax) lM es cs
      else applyCombo lm (min lM e.lMin) es cs

/-- Modelled from the spec: `DecidePassDirections` (body not in src). For the
obstacles entering at one station, enumerates left/right assignments over the
footprints that overlap `[l_min, l_max]` (non-overlapping ones are excluded
from enumeration) and retains exactly the assignments whose residual interval
is non-empty. -/
def decidePassDirections (lm lM : ℚ) (entering : List SweepEvent) :
    List (List Bool) :=
  let relevant := entering.filter (overlapsInterval lm lM)
  (allCombos relevant.length).filter (fun c =>
    decide ((applyCombo lm lM relevant c).1 ≤ (applyCombo lm lM relevant c).2))

theorem mem_allCombos {c : List Bool} {n : ℕ} :
    c ∈ allCombos n ↔ c.length = n := by
  induction n generalizing c with
  | zero =>
      simp [allCombos, List.length_eq_zero]
  | succ n ih =>
      simp only [allCombos, List.mem_append, List.mem_map]
      constructor
      · rintro (⟨t, ht, rfl⟩ | ⟨t, ht, rfl⟩) <;> simp [ih.mp ht]
      · intro hc
        cases c with
        | nil => simp at hc
        | cons b t =>
            simp only [List.length_cons, Nat.succ.injEq] at hc
            cases b
            · exact Or.inr ⟨t, ih.mpr hc, rfl⟩
            · exact Or.inl ⟨t, ih.mpr hc, rfl⟩

theorem mem_decidePassDirections {lm lM : ℚ} {entering : List SweepEvent}
    {c : List Bool} :
    c ∈ decidePassDirections lm lM entering ↔
      (c.length = (entering.filter (overlapsInterval lm lM)).length ∧
        (applyCombo lm lM (entering.filter (overlapsInterval lm lM)) c).1 ≤
        (applyCombo lm lM (entering.filter (overlapsInterval lm lM)) c).2) := by
  simp [decidePassDirections, List.mem_filter, mem_allCombos]

/-- Sort rank of an event kind: Enter events come before Exit events at the
same station. -/
def eventRank (e : SweepEvent) : ℕ :=
  if e.isEnter then 0 else 1

/-- The lexicographic sort key of a sweep event: ascending `s`, then
Enter-before-Exit, then ascending `obstacle_id`. -/
def eventKey (e : SweepEvent) : ℚ ×ₗ (ℕ ×ₗ String) :=
  toLex (e.s, toLex (eventRank e, e.id))

/-- The sweep-line event order. -/
def eventLE (a b : SweepEvent) : Prop :=
  eventKey a ≤ eventKey b

instance : DecidableRel eventLE := fun a b =>
  inferInstanceAs (Decidable (eventKey a ≤ eventKey b))

instance : IsTotal SweepEvent eventLE :=
  ⟨fun a b => le_total (eventKey a) (eventKey b)⟩

instance : IsTrans SweepEvent eventLE :=
  ⟨fun _ _ _ h h' => le_trans h h'⟩

/-- The Enter event of a footprint, at its `s_start`. -/
def enterEvent (f : ObstacleFootprint) : SweepEvent :=
  ⟨true, f.sStart, f.lMin, f.lMax, f.id, f.sEnd⟩

/-- The Exit event of a footprint, at its `s_end`. -/
def exitEvent (f : ObstacleFootprint) : SweepEvent :=
  ⟨false, f.sEnd, f.lMin, f.lMax, f.id, f.sEnd⟩

/-- Enter/Exit events of all footprints, before sorting. -/
def obstacleEvents (fps : List ObstacleFootprint) : List SweepEvent :=
  fps.flatMap (fun f => [enterEvent f, exitEvent f])

/-- Modelled from the spec: `SortObstaclesForSweepLine` (body not in src).
Builds Enter/Exit events at each footprint's `s_start`/`s_end` and sorts them
ascending by `s`, ties broken Enter-before-Exit, then by ascending
`obstacle_id`. -/
def sortObstaclesForSweepLine (fps : List ObstacleFootprint) :
    List SweepEvent :=
  List.insertionSort eventLE (obstacleEvents fps)

theorem mem_obstacleEvents {fps : List ObstacleFootprint} {e : SweepEvent} :
    e ∈ obstacleEvents fps ↔
      ∃ f ∈ fps, e = enterEvent f ∨ e = exitEvent f := by
  simp only [obstacleEvents, List.mem_flatMap, List.mem_cons,
    List.mem_singleton, List.not_mem_nil, or_false]

theorem eventKey_inj_of_nodup {fps : List ObstacleFootprint}
    (hnd : (fps.map ObstacleFootprint.id).Nodup) :
    ∀ a ∈ obstacleEvents fps, ∀ b ∈ obstacleEvents fps,
      eventKey a = eventKey b → a = b := by
  intro a ha b hb hkey
  obtain ⟨fa, hfa, hea⟩ := mem_obstacleEvents.mp ha
  obtain ⟨fb, hfb, heb⟩ := mem_obstacleEvents.mp hb
  have hfields : a.s = b.s ∧ eventRank a = eventRank b ∧ a.id = b.id := by
    have := toLex_inj.mp hkey
    have h1 : a.s = b.s := congrArg Prod.fst this
    have h2 := toLex_inj.mp (congrArg Prod.snd this)
    exact ⟨h1, congrArg Prod.fst h2, congrArg Prod.snd h2⟩
  have hid : fa.id = fb.id := by
    have ha' : a.id = fa.id := by rcases hea with rfl | rfl <;> rfl
    have hb' : b.id = fb.id := by rcases heb with rfl | rfl <;> rfl
    rw [← ha', ← hb']; exact hfields.2.2
  have hf : fa = fb := List.inj_on_of_nodup_map hnd hfa hfb hid
  subst hf
  rcases hea with rfl | rfl <;> rcases heb with rfl | rfl
  · rfl
  · exact absurd hfields.2.1 (by simp [eventRank, enterEvent, exitEvent])
  · exact absurd hfields.2.1 (by simp [eventRank, enterEvent, exitEvent])
  · rfl

/-- An obstacle currently active in the sweep, with its committed pass side
and exit station (the `obs_id_to_details` mapping threaded through the C++
recursion). -/
structure ActiveObs where
  id : String
  sEnd : ℚ
  passLeft : Bool
  lMin : ℚ
  lMax : ℚ
deriving Repr, DecidableEq

/-- Narrowing imposed at a station by the already-committed pass choices of
the active obstacles. -/
def applyActive (lm lM : ℚ) : List ActiveObs → ℚ × ℚ
  | [] => (lm, lM)
  | o :: os =>
      if o.passLeft then applyActive (max lm o.lMax) lM os
      else applyActive lm (min lM o.lMin) os

/-- First element maximizing `w` (earlier elements win ties). -/
def pickBest (w : List Bool → ℚ) : List (List Bool) → Option (List Bool)
  | [] => none
  | c :: cs => some (cs.foldl (fun best x => if w best < w x then x else best) c)

/-- Residual corridor width of a pass-direction combination. -/
def comboWidth (lm lM : ℚ) (rel : List SweepEvent) (c : List Bool) : ℚ :=
  (applyCombo lm lM rel c).2 - (applyCombo lm lM rel c).1

/-- The active-obstacle records created by committing a pass-direction
combination for the newly entering (overlapping) obstacles. -/
def commitEntering : List SweepEvent → List Bool → List ActiveObs
  | [], _ => []
  | _ :: _, [] => []
  | e :: es, c :: cs => ⟨e.id, e.sEnd, c, e.lMin, e.lMax⟩ :: commitEntering es cs

/-- The obstacle blamed for a blockage: the first newly-entering overlapping
obstacle if any, otherwise the first active obstacle. -/
def blameId (active : List ActiveObs) (rel : List SweepEvent) : String :=
  match rel with
  | e :: _ => e.id
  | [] =>
      match active with
      | o :: _ => o.id
      | [] => ""

/-- Result of the obstacle sweep: the committed (already trimmed) boundary,
the blocked station index if the corridor collapsed, and the blocking
obstacle id (empty when not blocked). -/
structure SweepOut where
  bounds : List Station
  blockedIdx : Option ℕ
  blockingId : String
deriving Repr, DecidableEq

/-- Modelled from the spec: the left-to-right station sweep at the heart of
`GetBoundaryFromStaticObstacles` / `ConstructSubsequentPathBounds` (bodies not
in src). At each station it drops active obstacles whose `s_end` has passed,
collects newly entering obstacles from the sorted event list, decides pass
directions, commits the feasible combination of maximal residual width, and
commits the narrowed interval; if no feasible combination exists the station
is marked blocked and the boundary is not extended past it. -/
def sweepGo : List SweepEvent → List ActiveObs → List Station → ℕ → SweepOut
  | _, _, [], _ => ⟨[], none, ""⟩
  | evs, active, st :: rest, idx =>
      let active1 := active.filter (fun o => decide (st.s ≤ o.sEnd))
      let entering := (evs.takeWhile (fun e => decide (e.s ≤ st.s))).filter
        (fun e => e.isEnter)
      let evs2 := evs.dropWhile (fun e => decide (e.s ≤ st.s))
      let p1 := applyActive st.lMin st.lMax active1
      let rel := entering.filter (overlapsInterval p1.1 p1.2)
      match pickBest (comboWidth p1.1 p1.2 rel)
          (decidePassDirections p1.1 p1.2 entering) with
      | none => ⟨[], some idx, blameId active1 rel⟩
      | some c =>
          let p2 := applyCombo p1.1 p1.2 rel c
          let out := sweepGo evs2 (active1 ++ commitEntering rel c) rest (idx + 1)
          ⟨updateStation st.s p2.2 p2.1 :: out.bounds, out.blockedIdx,
           out.blockingId⟩

/-- Modelled from the spec: `GetBoundaryFromStaticObstacles` (body not in
src): sorts the obstacle footprints into sweep events and runs the sweep from
the first station with an empty active set. -/
def getBoundaryFromStaticObstacles (fps : List ObstacleFootprint)
    (b : List Station) : SweepOut :=
  sweepGo (sortObstaclesForSweepLine fps) [] b 0

/-- Modelled from the spec: `ConstructSubsequentPathBounds` (body not in src).
Resumes the sweep at `path_idx` / `obs_idx` with the given active-obstacle
details over the committed boundary, producing the vector of constructed
candidate boundaries; per the spec's greedy single-pass description it
commits one combination per station, so the vector holds exactly one
candidate. -/
def constructSubsequentPathBounds (evs : List SweepEvent)
    (pathIdx obsIdx : ℕ) (active : List ActiveObs)
    (cur : List Station) : List (List Station) :=
  let out := sweepGo (evs.drop obsIdx) active (cur.drop pathIdx) pathIdx
  [cur.take pathIdx ++ out.bounds]

theorem foldl_pick_mem (w : List Bool → ℚ) :
    ∀ (cs : List (List Bool)) (c : List Bool),
      cs.foldl (fun best x => if w best < w x then x else best) c ∈ c :: cs
  | [], c => List.mem_singleton_self c
  | x :: xs, c => by
      simp only [List.foldl_cons]
      have h := foldl_pick_mem w xs (if w c < w x then x else c)
      rcases List.mem_cons.mp h with h | h
      · rw [h]
        split <;> simp
      · exact List.mem_cons.mpr (Or.inr (List.mem_cons.mpr (Or.inr h)))

theorem pickBest_mem {w : List Bool → ℚ} {l : List (List Bool)}
    {c : List Bool} (h : pickBest w l = some c) : c ∈ l := by
  cases l with
  | nil => simp [pickBest] at h
  | cons a as =>
      simp only [pickBest, Option.some.injEq] at h
      exact h ▸ foldl_pick_mem w as a

theorem sweepGo_noncrossed :
    ∀ (sts : List Station) (evs : List SweepEvent) (active : List ActiveObs)
      (idx : ℕ), ∀ st ∈ (sweepGo evs active sts idx).bounds,
      st.lMin ≤ st.lMax := by
  intro sts
  induction sts with
  | nil =>
      intro evs active idx st h
      simp [sweepGo] at h
  | cons s0 rest ih =>
      intro evs active idx st h
      simp only [sweepGo] at h
      split at h
      · simp at h
      · rename_i c heq
        rcases List.mem_cons.mp h with h | h
        · have hc := mem_decidePassDirections.mp (pickBest_mem heq)
          subst h
          exact hc.2
        · exact ih _ _ _ st h

theorem sweepGo_blocked :
    ∀ (sts : List Station) (evs : List SweepEvent) (active : List ActiveObs)
      (idx k : ℕ) (out : SweepOut), sweepGo evs active sts idx = out →
      out.blockedIdx = some k →
      k = idx + out.bounds.length ∧ out.bounds.length < sts.length := by
  intro sts
  induction sts with
  | nil =>
      intro evs active idx k out hout hk
      simp only [sweepGo] at hout
      subst hout
      simp at hk
  | cons s0 rest ih =>
      intro evs active idx k out hout hk
      simp only [sweepGo] at hout
      split at hout
      · subst hout
        simp only [Option.some.injEq] at hk
        simp [← hk]
      · rename_i c heq
        subst hout
        simp only at hk
        have h := ih _ _ _ k _ rfl hk
        simp only [List.length_cons]
        omega

theorem sweepGo_s_map :
    ∀ (sts : List Station) (evs : List SweepEvent) (active : List ActiveObs)
      (idx : ℕ) (out : SweepOut), sweepGo evs active sts idx = out →
      out.bounds.map Station.s =
        (sts.map Station.s).take out.bounds.length := by
  intro sts
  induction sts with
  | nil =>
      intro evs active idx out hout
      simp only [sweepGo] at hout
      subst hout
      simp
  | cons s0 rest ih =>
      intro evs active idx out hout
      simp only [sweepGo] at hout
      split at hout
      · subst hout; simp
      · rename_i c heq
        subst hout
        simp only [List.map_cons, List.length_cons, List.take_succ_cons,
          updateStation]
        exact congrArg (s0.s :: ·) (ih _ _ _ _ rfl)

theorem commitEntering_id_mem :
    ∀ (es : List SweepEvent) (cs : List Bool) (o : ActiveObs),
      o ∈ commitEntering es cs → ∃ e ∈ es, o.id = e.id
  | [], _, o => by simp [commitEntering]
  | _ :: _, [], o => by simp [commitEntering]
  | e :: es, c :: cs, o => by
      intro h
      rcases List.mem_cons.mp h with h | h
      · exact ⟨e, List.mem_cons_self e es, by rw [h]⟩
      · obtain ⟨e', he', hid⟩ := commitEntering_id_mem es cs o h
        exact ⟨e', List.mem_cons_of_mem e he', hid⟩

theorem sweepGo_blockingId_mem :
    ∀ (sts : List Station) (evs : List SweepEvent) (active : List ActiveObs)
      (idx : ℕ) (ids : List String) (out : SweepOut),
      sweepGo evs active sts idx = out →
      (∀ e ∈ evs, e.id ∈ ids) → (∀ o ∈ active, o.id ∈ ids) →
      (∀ st ∈ sts, st.lMin ≤ st.lMax) →
      ∀ k, out.blockedIdx = some k → out.blockingId ∈ ids := by
  intro sts
  induction sts with
  | nil =>
      intro evs active idx ids out hout hevs hact hncr k hk
      simp only [sweepGo] at hout
      subst hout
      simp at hk
  | cons s0 rest ih =>
      intro evs active idx ids out hout hevs hact hncr k hk
      simp only [sweepGo] at hout
      split at hout
      · rename_i heq
        subst hout
        simp only
        rcases hR : (List.filter (fun e => e.isEnter)
            (List.takeWhile (fun e => decide (e.s ≤ s0.s)) evs)).filter
            (overlapsInterval
              (applyActive s0.lMin s0.lMax
                (active.filter (fun o => decide (s0.s ≤ o.sEnd)))).1
              (applyActive s0.lMin s0.lMax
                (active.filter (fun o => decide (s0.s ≤ o.sEnd)))).2) with
          _ | ⟨e, es⟩
        · rcases hA : active.filter (fun o => decide (s0.s ≤ o.sEnd)) with
            _ | ⟨o, os⟩
          · exfalso
            rw [hA] at hR heq
            rw [hR] at heq
            have hs0 : s0.lMin ≤ s0.lMax := hncr s0 (List.mem_cons_self s0 rest)
            have hfeas : [] ∈ decidePassDirections
                (applyActive s0.lMin s0.lMax []).1
                (applyActive s0.lMin s0.lMax []).2
                (List.filter (fun e => e.isEnter)
                  (List.takeWhile (fun e => decide (e.s ≤ s0.s)) evs)) := by
              rw [mem_decidePassDirections]
              rw [hR]
              simp [applyCombo, applyActive] at hs0 ⊢
              exact hs0
            rcases hd : decidePassDirections
                (applyActive s0.lMin s0.lMax []).1
                (applyActive s0.lMin s0.lMax []).2
                (List.filter (fun e => e.isEnter)
                  (List.takeWhile (fun e => decide (e.s ≤ s0.s)) evs)) with
              _ | ⟨c0, cs0⟩
            · rw [hd] at hfeas
              simp at hfeas
            · rw [hd] at heq
              simp [pickBest] at heq
          · rw [hR, hA]
            simp only [blameId]
            exact hact o (List.mem_filter.mp (hA ▸ List.mem_cons_self o os)).1
        · rw [hR]
          simp only [blameId]
          have he : e ∈ List.takeWhile (fun e => decide (e.s ≤ s0.s)) evs := by
            have h1 := hR ▸ List.mem_cons_self e es
            exact (List.mem_filter.mp (List.mem_filter.mp h1).1).1
          exact hevs e ((List.takeWhile_sublist _).subset he)
      · rename_i c heq
        subst hout
        simp only at hk ⊢
        refine ih _ _ _ _ _ rfl ?_ ?_ ?_ k hk
        · intro e he
          exact hevs e ((List.dropWhile_sublist _).subset he)
        · intro o ho
          rcases List.mem_append.mp ho with ho | ho
          · exact hact o (List.mem_filter.mp ho).1
          · obtain ⟨e, he, hid⟩ := commitEntering_id_mem _ _ o ho
            have h1 := (List.mem_filter.mp he).1
            have h2 := (List.mem_filter.mp h1).1
            rw [hid]
            exact hevs e ((List.takeWhile_sublist _).subset h2)
        · exact fun st hst => hncr st (List.mem_cons_of_mem s0 hst)

/-- Half-width of the maximal physically representable lateral interval used
to initialize the boundary (stands in for the `double` limits of the C++
code). -/
def maxLateral : ℚ := 100

/-- Index of the station whose arc length is nearest to `s` (earlier stations
win ties). -/
def nearestStationIdx (s : ℚ) : List ℚ → ℕ
  | [] => 0
  | a :: rest =>
      if rest = [] then 0
      else
        let j := nearestStationIdx s rest
        if |rest.getD j 0 - s| < |a - s| then j + 1 else 0

theorem nearestStationIdx_lt_length (s : ℚ) :
    ∀ (l : List ℚ), l ≠ [] → nearestStationIdx s l < l.length
  | [], h => absurd rfl h
  | a :: rest, _ => by
      rw [nearestStationIdx]
      split
      · simp
      · rename_i hne
        dsimp only
        split
        · have := nearestStationIdx_lt_length s rest hne
          simpa [Nat.succ_lt_succ_iff] using this
        · simp

/-- Number of stations spanning `[0, refLen]` at a fixed `step`:
`⌊refLen / step⌋ + 1`, computed on the numerators/denominators so that it
reduces by evaluation. -/
def stationCount (refLen step : ℚ) : ℕ :=
  (refLen.num * (step.den : ℤ)).toNat / (step.num * (refLen.den : ℤ)).toNat + 1

/-- Modelled from the spec: `InitPathBoundary` (body not in src). Produces
stations spanning the reference length at a fixed step, each initialized to
the maximal lateral interval; fails when the reference curve (or the step) is
degenerate. -/
def initPathBoundary (refLen step : ℚ) : Option (List Station) :=
  if refLen ≤ 0 ∨ step ≤ 0 then none
  else some ((List.range (stationCount refLen step)).map
    (fun i : ℕ => ⟨(i : ℚ) * step, -maxLateral, maxLateral⟩))

/-- Modelled from the spec: `GetBoundaryFromLanesAndADC` (body not in src).
Narrows each station to the lane edges, widened on the side permitted by the
borrow mode; at the ego's own station, if the ego's lateral offset lies
outside the lane-derived interval, the interval is expanded just enough to
contain `l ± adc_buffer`. Fails (returns `none`, the C++ `false`) exactly when
lane geometry cannot be resolved for some station. -/
def getBoundaryFromLanesAndADC (lane : ℕ → Option (ℚ × ℚ))
    (adjLeft adjRight : ℚ) (borrow : LaneBorrowInfo) (buffer : ℚ)
    (adc : ADCFrenetState) (b : List Station) : Option (List Station) :=
  if (List.range b.length).all (fun i => (lane i).isSome) then
    let egoIdx := nearestStationIdx adc.s (b.map Station.s)
    some (b.enum.map (fun p =>
      let edges := (lane p.1).getD (0, 0)
      let leftEdge := if borrow = .LEFT_BORROW then edges.1 + adjLeft
        else edges.1
      let rightEdge := if borrow = .RIGHT_BORROW then edges.2 - adjRight
        else edges.2
      let lm := max p.2.lMin rightEdge
      let lM := min p.2.lMax leftEdge
      if p.1 = egoIdx ∧ (adc.l < lm ∨ lM < adc.l) then
        ⟨p.2.s, min lm (adc.l - buffer), max lM (adc.l + buffer)⟩
      else ⟨p.2.s, lm, lM⟩))
  else none

/-- Configuration supplied by the planning context: discretization step, ADC
buffer width, lane-borrow enablement and minimum-acceptable-boundary
thresholds (the latter expressed as station counts). -/
structure Config where
  step : ℚ
  adcBuffer : ℚ
  laneBorrowEnabled : Bool
  minBoundaryLen : ℕ
  minBlockIdx : ℕ
deriving Repr, DecidableEq

/-- The read-only per-cycle inputs of the decider: the resolved ego Frenet
state (`none` when lane resolution failed), the reference-curve length, the
per-station lane edges `(left_edge, right_edge)` from the map service, the
adjacent lane widths available for borrowing, and the static obstacle
snapshot. -/
structure DeciderInput where
  adc : Option ADCFrenetState
  refLen : ℚ
  lane : ℕ → Option (ℚ × ℚ)
  adjLeft : ℚ
  adjRight : ℚ
  obstacles : List ObstacleFootprint

/-- Result of one boundary-generation attempt: the failure message (empty
string exactly on success), the produced boundary, the blocked station index
if any, and the blocking obstacle id. -/
structure GenResult where
  msg : String
  bounds : List Station
  blockedIdx : Option ℕ
  blockingId : String
deriving Repr, DecidableEq

/-- Modelled from the spec: `GenerateRegularPathBoundary` (body not in src):
init, lane/ADC narrowing for the given borrow mode, then the static-obstacle
sweep; a blockage is not a failure. -/
def generateRegularPathBoundary (cfg : Config) (inp : DeciderInput)
    (adc : ADCFrenetState) (borrow : LaneBorrowInfo) : GenResult :=
  match initPathBoundary inp.refLen cfg.step with
  | none => ⟨"empty reference line", [], none, ""⟩
  | some b0 =>
      match getBoundaryFromLanesAndADC inp.lane inp.adjLeft inp.adjRight
          borrow cfg.adcBuffer adc b0 with
      | none => ⟨"cannot resolve lane geometry", [], none, ""⟩
      | some b1 =>
          let out := getBoundaryFromStaticObstacles inp.obstacles b1
          ⟨"", out.bounds, out.blockedIdx, out.blockingId⟩

/-- Modelled from the spec: `GenerateFallbackPathBoundary` (body not in src):
lane and ADC containment only, no obstacles and no lane borrowing. -/
def generateFallbackPathBoundary (cfg : Config) (inp : DeciderInput)
    (adc : ADCFrenetState) : GenResult :=
  match initPathBoundary inp.refLen cfg.step with
  | none => ⟨"empty reference line", [], none, ""⟩
  | some b0 =>
      match getBoundaryFromLanesAndADC inp.lane inp.adjLeft inp.adjRight
          .NO_BORROW cfg.adcBuffer adc b0 with
      | none => ⟨"cannot resolve lane geometry", [], none, ""⟩
      | some b1 => ⟨"", b1, none, ""⟩

/-- Acceptance test of the orchestrator: the attempt succeeded, the boundary
is long enough, and there is no blockage before the minimum required
distance. -/
def acceptable (cfg : Config) (r : GenResult) : Bool :=
  decide (r.msg = "") && decide (cfg.minBoundaryLen ≤ r.bounds.length) &&
    (match r.blockedIdx with
     | none => true
     | some k => decide (cfg.minBlockIdx ≤ k))

/-- Modelled from the spec: the `Process` orchestration (body not in src).
NoBorrow first; when it is not acceptable and borrowing is enabled, LeftBorrow
then RightBorrow; the first acceptable result wins; the fallback runs only
after all regular attempts fail, and its failure terminates the cycle with a
non-empty diagnostic. -/
def processModel (cfg : Config) (inp : DeciderInput) : DeciderOutcome :=
  match inp.adc with
  | none => .failure "cannot resolve ADC lane"
  | some adc =>
      let nb := generateRegularPathBoundary cfg inp adc .NO_BORROW
      if acceptable cfg nb then .success nb.bounds nb.blockingId
      else
        let lb := generateRegularPathBoundary cfg inp adc .LEFT_BORROW
        if cfg.laneBorrowEnabled && acceptable cfg lb then
          .success lb.bounds lb.blockingId
        else
          let rb := generateRegularPathBoundary cfg inp adc .RIGHT_BORROW
          if cfg.laneBorrowEnabled && acceptable cfg rb then
            .success rb.bounds rb.blockingId
          else
            let fb := generateFallbackPathBoundary cfg inp adc
            if fb.msg = "" then .success fb.bounds fb.blockingId
            else .failure fb.msg

/-- The shared state of one planning cycle: the read-only inputs plus the
decider's result slot. -/
structure CycleState where
  inp : DeciderInput
  result : Option DeciderOutcome

/-- One full decider invocation as a transformer of the cycle state: it only
fills the result slot. -/
def runCycle (cfg : Config) (st : CycleState) : CycleState :=
  { st with result := some (processModel cfg st.inp) }

/-- The regular generation step as a transformer of the cycle state (writes
nothing but the result slot). -/
def runRegularOp (cfg : Config) (adc : ADCFrenetState)
    (borrow : LaneBorrowInfo) (st : CycleState) : CycleState × GenResult :=
  (st, generateRegularPathBoundary cfg st.inp adc borrow)

/-- The fallback generation step as a transformer of the cycle state (writes
nothing but the result slot). -/
def runFallbackOp (cfg : Config) (adc : ADCFrenetState)
    (st : CycleState) : CycleState × GenResult :=
  (st, generateFallbackPathBoundary cfg st.inp adc)

theorem initPathBoundary_shape {refLen step : ℚ} {b0 : List Station}
    (h : initPathBoundary refLen step = some b0) :
    0 < b0.length ∧ ∀ st ∈ b0, st.lMin = -maxLateral ∧ st.lMax = maxLateral := by
  rw [initPathBoundary] at h
  split at h
  · exact absurd h (by simp)
  · replace h := Option.some.inj h
    subst h
    constructor
    · rw [List.length_map, List.length_range, stationCount]
      exact Nat.succ_pos _
    intro st hst
    obtain ⟨i, _, rfl⟩ := List.mem_map.mp hst
    exact ⟨rfl, rfl⟩

theorem lanesADC_length {lane : ℕ → Option (ℚ × ℚ)} {adjL adjR : ℚ}
    {borrow : LaneBorrowInfo} {buffer : ℚ} {adc : ADCFrenetState}
    {b b1 : List Station}
    (h : getBoundaryFromLanesAndADC lane adjL adjR borrow buffer adc b =
      some b1) : b1.length = b.length := by
  rw [getBoundaryFromLanesAndADC] at h
  split at h
  · replace h := Option.some.inj h
    subst h
    simp [List.enum_eq_enumFrom]
  · exact absurd h (by simp)

theorem lanesADC_getElem {lane : ℕ → Option (ℚ × ℚ)} {adjL adjR : ℚ}
    {borrow : LaneBorrowInfo} {buffer : ℚ} {adc : ADCFrenetState}
    {b b1 : List Station}
    (h : getBoundaryFromLanesAndADC lane adjL adjR borrow buffer adc b =
      some b1) (i : ℕ) (hi : i < b.length) :
    b1[i]? = some (
      let st := b[i]
      let edges := (lane i).getD (0, 0)
      let leftEdge := if borrow = .LEFT_BORROW then edges.1 + adjL
        else edges.1
      let rightEdge := if borrow = .RIGHT_BORROW then edges.2 - adjR
        else edges.2
      let lm := max st.lMin rightEdge
      let lM := min st.lMax leftEdge
      if i = nearestStationIdx adc.s (b.map Station.s) ∧
          (adc.l < lm ∨ lM < adc.l) then
        ⟨st.s, min lm (adc.l - buffer), max lM (adc.l + buffer)⟩
      else ⟨st.s, lm, lM⟩) := by
  rw [getBoundaryFromLanesAndADC] at h
  split at h
  · replace h := Option.some.inj h
    subst h
    rw [List.getElem?_eq_getElem (by simp [List.enum_eq_enumFrom]; exact hi)]
    simp [List.enum_eq_enumFrom, List.getElem_enumFrom]
  · exact absurd h (by simp)

theorem lanesADC_lane_some {lane : ℕ → Option (ℚ × ℚ)} {adjL adjR : ℚ}
    {borrow : LaneBorrowInfo} {buffer : ℚ} {adc : ADCFrenetState}
    {b b1 : List Station}
    (h : getBoundaryFromLanesAndADC lane adjL adjR borrow buffer adc b =
      some b1) (i : ℕ) (hi : i < b.length) : (lane i).isSome := by
  rw [getBoundaryFromLanesAndADC] at h
  split at h
  · rename_i hall
    simpa using List.all_eq_true.mp hall i (List.mem_range.mpr hi)
  · exact absurd h (by simp)

theorem lanesADC_map_s {lane : ℕ → Option (ℚ × ℚ)} {adjL adjR : ℚ}
    {borrow : LaneBorrowInfo} {buffer : ℚ} {adc : ADCFrenetState}
    {b b1 : List Station}
    (h : getBoundaryFromLanesAndADC lane adjL adjR borrow buffer adc b =
      some b1) : b1.map Station.s = b.map Station.s := by
  have hlen := lanesADC_length h
  apply List.ext_getElem (by simp [hlen])
  intro i h1 h2
  simp only [List.getElem_map]
  have hg := lanesADC_getElem h i (by simpa using h2)
  rw [List.getElem?_eq_getElem (by simpa [hlen] using h2)] at hg
  replace hg := Option.some.inj hg
  rw [hg]
  dsimp only
  rw [apply_ite Station.s]
  dsimp only
  exact ite_self _

theorem lanesADC_noncrossed {lane : ℕ → Option (ℚ × ℚ)} {adjL adjR : ℚ}
    {borrow : LaneBorrowInfo} {buffer : ℚ} {adc : ADCFrenetState}
    {b b1 : List Station}
    (hlane : ∀ i le re, lane i = some (le, re) →
      re ≤ le ∧ -maxLateral ≤ re ∧ le ≤ maxLateral)
    (hadjL : 0 ≤ adjL) (hadjR : 0 ≤ adjR)
    (hb : ∀ st ∈ b, st.lMin = -maxLateral ∧ st.lMax = maxLateral)
    (h : getBoundaryFromLanesAndADC lane adjL adjR borrow buffer adc b =
      some b1) :
    ∀ st ∈ b1, st.lMin ≤ st.lMax := by
  intro st hst
  obtain ⟨i, hi, hgi⟩ := List.mem_iff_getElem.mp hst
  have hib : i < b.length := by rw [← lanesADC_length h]; exact hi
  obtain ⟨⟨le0, re0⟩, hle0⟩ :=
    Option.isSome_iff_exists.mp (lanesADC_lane_some h i hib)
  have hedge := hlane i le0 re0 hle0
  have hbmem := hb (b[i]) (List.getElem_mem hib)
  have hg := lanesADC_getElem h i hib
  rw [List.getElem?_eq_getElem hi, hgi, hle0] at hg
  replace hg := Option.some.inj hg
  dsimp only [Option.getD_some] at hg
  have hkey : max (b[i]).lMin
        (if borrow = LaneBorrowInfo.RIGHT_BORROW then re0 - adjR else re0) ≤
      min (b[i]).lMax
        (if borrow = LaneBorrowInfo.LEFT_BORROW then le0 + adjL else le0) := by
    rw [hbmem.1, hbmem.2]
    apply max_le
    · apply le_min
      · norm_num [maxLateral]
      · split <;> linarith [hedge.1, hedge.2.1]
    · apply le_min
      · split <;> linarith [hedge.1, hedge.2.2]
      · split <;> split <;> linarith [hedge.1]
  rw [hg]
  set RE := (if borrow = LaneBorrowInfo.RIGHT_BORROW then re0 - adjR else re0)
  set LE := (if borrow = LaneBorrowInfo.LEFT_BORROW then le0 + adjL else le0)
  split
  · exact le_trans (min_le_left _ _) (le_trans hkey (le_max_left _ _))
  · exact hkey

/-- Containment check of the spec's testable property: the station nearest
the ego's `s` contains the ego's lateral offset. -/
def egoContained (adcS adcL : ℚ) (b : List Station) : Bool :=
  match b[nearestStationIdx adcS (b.map Station.s)]? with
  | none => false
  | some st => decide (st.lMin ≤ adcL) && decide (adcL ≤ st.lMax)

theorem lanesADC_contains_adc {lane : ℕ → Option (ℚ × ℚ)} {adjL adjR : ℚ}
    {borrow : LaneBorrowInfo} {buffer : ℚ} {adc : ADCFrenetState}
    {b b1 : List Station} (hbuf : 0 ≤ buffer) (hbne : b ≠ [])
    (h : getBoundaryFromLanesAndADC lane adjL adjR borrow buffer adc b =
      some b1) :
    egoContained adc.s adc.l b1 = true := by
  have hmaps := lanesADC_map_s h
  have hlen := lanesADC_length h
  set j := nearestStationIdx adc.s (b.map Station.s) with hj
  have hjb : j < b.length := by
    have := nearestStationIdx_lt_length adc.s (b.map Station.s)
      (by simpa using hbne)
    simpa using this
  have hg := lanesADC_getElem h j hjb
  rw [egoContained, hmaps, ← hj]
  rw [List.getElem?_eq_getElem (by rw [hlen]; exact hjb)] at hg ⊢
  replace hg := Option.some.inj hg
  rw [hg]
  dsimp only
  set lm := max (b[j]).lMin
    ((if borrow = LaneBorrowInfo.RIGHT_BORROW
      then ((lane j).getD (0, 0)).2 - adjR else ((lane j).getD (0, 0)).2))
  set lM := min (b[j]).lMax
    ((if borrow = LaneBorrowInfo.LEFT_BORROW
      then ((lane j).getD (0, 0)).1 + adjL else ((lane j).getD (0, 0)).1))
  by_cases hout : adc.l < lm ∨ lM < adc.l
  · rw [if_pos ⟨rfl, hout⟩]
    have h1 : min lm (adc.l - buffer) ≤ adc.l :=
      le_trans (min_le_right _ _) (by linarith)
    have h2 : adc.l ≤ max lM (adc.l + buffer) :=
      le_trans (by linarith) (le_max_right _ _)
    simp [h1, h2]
  · rw [if_neg (by simp [hout])]
    push_neg at hout
    simp [hout.1, hout.2]

theorem generateRegular_noncrossed (cfg : Config) (inp : DeciderInput)
    (adc : ADCFrenetState) (borrow : LaneBorrowInfo) :
    ∀ st ∈ (generateRegularPathBoundary cfg inp adc borrow).bounds,
      st.lMin ≤ st.lMax := by
  intro st hst
  rw [generateRegularPathBoundary] at hst
  split at hst
  · simp at hst
  · split at hst
    · simp at hst
    · rename_i b1 hb1
      exact sweepGo_noncrossed b1 _ _ _ st hst

theorem generateFallback_noncrossed (cfg : Config) (inp : DeciderInput)
    (adc : ADCFrenetState)
    (hlane : ∀ i le re, inp.lane i = some (le, re) →
      re ≤ le ∧ -maxLateral ≤ re ∧ le ≤ maxLateral)
    (hadjL : 0 ≤ inp.adjLeft) (hadjR : 0 ≤ inp.adjRight) :
    ∀ st ∈ (generateFallbackPathBoundary cfg inp adc).bounds,
      st.lMin ≤ st.lMax := by
  intro st hst
  rw [generateFallbackPathBoundary] at hst
  split at hst
  · simp at hst
  · rename_i b0 hb0
    split at hst
    · simp at hst
    · rename_i b1 hb1
      exact lanesADC_noncrossed hlane hadjL hadjR
        (initPathBoundary_shape hb0).2 hb1 st hst

/-- C1: for every accepted path boundary (regular, borrow, or fallback),
every station of the accepted boundary satisfies `l_min ≤ l_max`: no operation
of the pipeline commits a crossed station while the boundary is still
considered feasible (the lane hypotheses say the map service reports sane lane
edges and nonnegative adjacent-lane widths). -/
theorem c1_noncrossing_invariant (cfg : Config) (inp : DeciderInput)
    (hlane : ∀ i le re, inp.lane i = some (le, re) →
      re ≤ le ∧ -maxLateral ≤ re ∧ le ≤ maxLateral)
    (hadjL : 0 ≤ inp.adjLeft) (hadjR : 0 ≤ inp.adjRight) :
    ∀ b bid, processModel cfg inp = .success b bid →
      ∀ st ∈ b, st.lMin ≤ st.lMax := by
  intro b bid hp st hst
  rw [processModel] at hp
  split at hp
  · exact absurd hp (by simp)
  · rename_i adc hadc
    dsimp only at hp
    split at hp
    · injection hp with h1 h2
      subst h1
      exact generateRegular_noncrossed cfg inp adc .NO_BORROW st hst
    · split at hp
      · injection hp with h1 h2
        subst h1
        exact generateRegular_noncrossed cfg inp adc .LEFT_BORROW st hst
      · split at hp
        · injection hp with h1 h2
          subst h1
          exact generateRegular_noncrossed cfg inp adc .RIGHT_BORROW st hst
        · split at hp
          · injection hp with h1 h2
            subst h1
            exact generateFallback_noncrossed cfg inp adc hlane hadjL hadjR
              st hst
          · exact absurd hp (by simp)

/-- C3: `UpdatePathBoundaryAndCenterLine` writes
`boundary[idx] = (s, right_bound, left_bound)` (so `l_min = right_bound`,
`l_max = left_bound`), leaves every other station unchanged, recomputes
`center_line = (l_min + l_max) / 2`, and returns `false` if and only if
`left_bound < right_bound`. -/
theorem c3_update_boundary_contract (idx : ℕ) (leftBound rightBound : ℚ)
    (b : List Station) (center : ℚ) (hidx : idx < b.length) :
    (updatePathBoundaryAndCenterLine idx leftBound rightBound b center).1[idx]?
        = some ⟨(b[idx]).s, rightBound, leftBound⟩ ∧
    (∀ j, j ≠ idx →
      (updatePathBoundaryAndCenterLine idx leftBound rightBound b
        center).1[j]? = b[j]?) ∧
    (updatePathBoundaryAndCenterLine idx leftBound rightBound b center).2.1 =
      (rightBound + leftBound) / 2 ∧
    ((updatePathBoundaryAndCenterLine idx leftBound rightBound b
        center).2.2 = false ↔ leftBound < rightBound) := by
  refine ⟨?_, ?_, rfl, ?_⟩
  · rw [updatePathBoundaryAndCenterLine]
    dsimp only
    rw [List.getElem?_set_self (by exact hidx)]
    rw [updateStation]
    congr 2
    rw [List.getD_eq_getElem?_getD, List.getElem?_eq_getElem hidx]
    rfl
  · intro j hj
    rw [updatePathBoundaryAndCenterLine]
    dsimp only
    rw [List.getElem?_set_ne (fun h => hj h.symm)]
  · rw [updatePathBoundaryAndCenterLine]
    dsimp only
    simp [not_le]

/-- C10 (counterexample): the class declaration keeps persistent mutable
member fields (`blocking_obstacle_id_` and the ego Frenet/lane scalars), so
the field list of the component is not empty as the claim's re-architected
description asserts. -/
theorem c10_member_fields_counterexample :
    pathBoundsDeciderMemberFields ≠ [] ∧
      pathBoundsDeciderMemberFields.length = 7 := by
  exact ⟨by decide, by decide⟩

/-- C10 (amended): the component declares seven persistent private member
fields, among them `blocking_obstacle_id_` and the ego Frenet scalars; they
are member state of the class rather than an immutable `ADCFrenetState` value
plus a `DeciderOutcome` return value. -/
theorem c10_member_fields_amended :
    "blocking_obstacle_id_" ∈ pathBoundsDeciderMemberFields ∧
    "adc_frenet_s_" ∈ pathBoundsDeciderMemberFields ∧
    "adc_frenet_l_" ∈ pathBoundsDeciderMemberFields ∧
    "adc_lane_info_" ∈ pathBoundsDeciderMemberFields ∧
    pathBoundsDeciderMemberFields.length = 7 := by
  refine ⟨?_, ?_, ?_, ?_, ?_⟩ <;> decide

/-- C4: `DecidePassDirections` returns exactly the left/right assignments
over the overlapping obstacles whose residual interval is non-empty;
non-overlapping obstacles are excluded from enumeration; for an empty group
with a feasible interval, the result is the no-constraint identity `[[]]`; the
result is empty iff no assignment is feasible. -/
theorem c4_decide_pass_directions_contract (lm lM : ℚ)
    (entering : List SweepEvent) :
    (∀ c, c ∈ decidePassDirections lm lM entering ↔
      (c.length = (entering.filter (overlapsInterval lm lM)).length ∧
        (applyCombo lm lM (entering.filter (overlapsInterval lm lM)) c).1 ≤
        (applyCombo lm lM (entering.filter (overlapsInterval lm lM)) c).2)) ∧
    (∀ e ∈ entering, overlapsInterval lm lM e = false →
      e ∉ entering.filter (overlapsInterval lm lM)) ∧
    (entering = [] → lm ≤ lM → decidePassDirections lm lM entering = [[]]) ∧
    (decidePassDirections lm lM entering = [] ↔
      ∀ c, c.length = (entering.filter (overlapsInterval lm lM)).length →
        ¬((applyCombo lm lM (entering.filter (overlapsInterval lm lM)) c).1 ≤
          (applyCombo lm lM (entering.filter (overlapsInterval lm lM)) c).2)) := by
  refine ⟨fun c => mem_decidePassDirections, ?_, ?_, ?_⟩
  · intro e _ hov hmem
    exact absurd (List.mem_filter.mp hmem).2 (by simp [hov])
  · rintro rfl h
    simp [decidePassDirections, allCombos, applyCombo, h]
  · constructor
    · intro h0 c hlen hfeas
      have hmem := mem_decidePassDirections.mpr ⟨hlen, hfeas⟩
      rw [h0] at hmem
      exact absurd hmem (List.not_mem_nil c)
    · intro h
      rw [List.eq_nil_iff_forall_not_mem]
      intro c hc
      have := mem_decidePassDirections.mp hc
      exact h c this.1 this.2

/-- C5: `SortObstaclesForSweepLine` is deterministic across permutations of
the same obstacle collection (given distinct obstacle ids), and its output is
sorted by ascending `s` with ties broken Enter-before-Exit and then by
ascending `obstacle_id` (the order `eventLE`). -/
theorem c5_sort_obstacles_deterministic (l₁ l₂ : List ObstacleFootprint)
    (hperm : l₁.Perm l₂) (hnd : (l₁.map ObstacleFootprint.id).Nodup) :
    sortObstaclesForSweepLine l₁ = sortObstaclesForSweepLine l₂ ∧
    List.Sorted eventLE (sortObstaclesForSweepLine l₁) := by
  have hs₁ := List.sorted_insertionSort eventLE (obstacleEvents l₁)
  have hs₂ := List.sorted_insertionSort eventLE (obstacleEvents l₂)
  have hpe : (obstacleEvents l₁).Perm (obstacleEvents l₂) :=
    hperm.flatMap_right _
  have hp : (sortObstaclesForSweepLine l₁).Perm
      (sortObstaclesForSweepLine l₂) :=
    ((List.perm_insertionSort eventLE _).trans hpe).trans
      (List.perm_insertionSort eventLE _).symm
  refine ⟨?_, hs₁⟩
  refine hp.eq_of_sorted ?_ hs₁ hs₂
  intro a b ha hb hab hba
  have ha' : a ∈ obstacleEvents l₁ :=
    (List.perm_insertionSort eventLE _).subset ha
  have hb' : b ∈ obstacleEvents l₁ :=
    hpe.symm.subset ((List.perm_insertionSort eventLE _).subset hb)
  exact eventKey_inj_of_nodup hnd a ha' b hb' (le_antisymm hab hba)

theorem sortObstacles_id_mem {fps : List ObstacleFootprint} {e : SweepEvent}
    (he : e ∈ sortObstaclesForSweepLine fps) :
    e.id ∈ fps.map ObstacleFootprint.id := by
  have he' : e ∈ obstacleEvents fps :=
    (List.perm_insertionSort eventLE _).subset he
  obtain ⟨f, hf, hef⟩ := mem_obstacleEvents.mp he'
  have hid : e.id = f.id := by rcases hef with rfl | rfl <;> rfl
  rw [hid]
  exact List.mem_map_of_mem _ hf

/-- C6: a blockage at station `k` stops the sweep there (the committed
boundary has exactly the `k` stations preceding the blockage, in order), the
triggering obstacle id is recorded (it is one of the snapshot's obstacle ids
whenever the incoming stations are non-crossed), and `TrimPathBounds(k, b)`
keeps exactly the first `k` stations. -/
theorem c6_blocked_outcome_contract :
    (∀ (k : ℕ) (b : List Station), k ≤ b.length →
      (trimPathBounds k b).length = k ∧
      ∀ i, i < k → (trimPathBounds k b)[i]? = b[i]?) ∧
    (∀ (fps : List ObstacleFootprint) (b : List Station) (k : ℕ),
      (getBoundaryFromStaticObstacles fps b).blockedIdx = some k →
      (getBoundaryFromStaticObstacles fps b).bounds.length = k ∧
      k < b.length ∧
      (getBoundaryFromStaticObstacles fps b).bounds.map Station.s =
        (b.map Station.s).take k ∧
      trimPathBounds k (getBoundaryFromStaticObstacles fps b).bounds =
        (getBoundaryFromStaticObstacles fps b).bounds) ∧
    (∀ (fps : List ObstacleFootprint) (b : List Station) (k : ℕ),
      (∀ st ∈ b, st.lMin ≤ st.lMax) →
      (getBoundaryFromStaticObstacles fps b).blockedIdx = some k →
      (getBoundaryFromStaticObstacles fps b).blockingId ∈
        fps.map ObstacleFootprint.id) := by
  refine ⟨?_, ?_, ?_⟩
  · intro k b hk
    refine ⟨by simp [trimPathBounds, hk], ?_⟩
    intro i hi
    rw [trimPathBounds, List.getElem?_take_of_lt hi]
  · intro fps b k hk
    rw [getBoundaryFromStaticObstacles] at hk ⊢
    have hb := sweepGo_blocked b _ _ 0 k _ rfl hk
    have hs := sweepGo_s_map b (sortObstaclesForSweepLine fps)
      ([] : List ActiveObs) 0 _ rfl
    refine ⟨by omega, by omega, ?_, ?_⟩
    · rw [hs]
      congr 1
      omega
    · rw [trimPathBounds]
      exact List.take_of_length_le (by omega)
  · intro fps b k hncr hk
    rw [getBoundaryFromStaticObstacles] at hk ⊢
    exact sweepGo_blockingId_mem b _ _ 0 _ _ rfl
      (fun e he => sortObstacles_id_mem he) (by simp) hncr k hk

/-- C7: `ConstructSubsequentPathBounds` produces its declared vector with
exactly one candidate, built by one left-to-right pass: the committed prefix
before `path_idx` is preserved unchanged (no back-tracking out of earlier
choices) and the stations of the candidate are those of the input boundary in
increasing order of `s`. -/
theorem c7_construct_single_pass (evs : List SweepEvent)
    (pathIdx obsIdx : ℕ) (active : List ActiveObs) (cur : List Station)
    (hp : pathIdx ≤ cur.length) :
    (constructSubsequentPathBounds evs pathIdx obsIdx active cur).length = 1 ∧
    ∀ r ∈ constructSubsequentPathBounds evs pathIdx obsIdx active cur,
      r.take pathIdx = cur.take pathIdx ∧
      r.map Station.s = (cur.map Station.s).take r.length := by
  refine ⟨rfl, ?_⟩
  intro r hr
  have hlenA : (cur.take pathIdx).length = pathIdx := by
    simp [hp]
  have hrr : r = cur.take pathIdx ++
      (sweepGo (evs.drop obsIdx) active (cur.drop pathIdx) pathIdx).bounds := by
    simpa [constructSubsequentPathBounds] using hr
  subst hrr
  have hs := sweepGo_s_map (cur.drop pathIdx) (evs.drop obsIdx) active
    pathIdx _ rfl
  constructor
  · rw [List.take_left' hlenA]
  · rw [List.length_append, hlenA, List.map_append, List.take_add]
    congr 1
    · rw [List.map_take]
    · rw [hs, List.map_drop]

theorem generateRegular_cases (cfg : Config) (inp : DeciderInput)
    (adc : ADCFrenetState) (borrow : LaneBorrowInfo) :
    (generateRegularPathBoundary cfg inp adc borrow).msg = "" ∨
    (generateRegularPathBoundary cfg inp adc borrow).bounds = [] := by
  rw [generateRegularPathBoundary]
  split
  · exact Or.inr rfl
  · split
    · exact Or.inr rfl
    · exact Or.inl rfl

theorem generateFallback_cases (cfg : Config) (inp : DeciderInput)
    (adc : ADCFrenetState) :
    (generateFallbackPathBoundary cfg inp adc).msg = "" ∨
    (generateFallbackPathBoundary cfg inp adc).bounds = [] := by
  rw [generateFallbackPathBoundary]
  split
  · exact Or.inr rfl
  · split
    · exact Or.inr rfl
    · exact Or.inl rfl

/-- C8: the orchestrator tries NoBorrow first and accepts it when acceptable;
otherwise, when lane borrowing is enabled, LeftBorrow then RightBorrow, first
acceptable wins; the fallback runs only after all regular attempts fail, and
its failure yields a non-empty diagnostic; every attempt reports an empty
message exactly on success (a failed attempt produces no boundary) and the
whole cycle never returns an empty failure reason. -/
theorem c8_orchestrator_order (cfg : Config) (inp : DeciderInput) :
    (inp.adc = none →
      processModel cfg inp = .failure "cannot resolve ADC lane") ∧
    (∀ adc, inp.adc = some adc →
      (acceptable cfg (generateRegularPathBoundary cfg inp adc .NO_BORROW) =
          true →
        processModel cfg inp = .success
          (generateRegularPathBoundary cfg inp adc .NO_BORROW).bounds
          (generateRegularPathBoundary cfg inp adc .NO_BORROW).blockingId) ∧
      (acceptable cfg (generateRegularPathBoundary cfg inp adc .NO_BORROW) =
          false →
        cfg.laneBorrowEnabled = true →
        acceptable cfg (generateRegularPathBoundary cfg inp adc .LEFT_BORROW) =
          true →
        processModel cfg inp = .success
          (generateRegularPathBoundary cfg inp adc .LEFT_BORROW).bounds
          (generateRegularPathBoundary cfg inp adc .LEFT_BORROW).blockingId) ∧
      (acceptable cfg (generateRegularPathBoundary cfg inp adc .NO_BORROW) =
          false →
        cfg.laneBorrowEnabled = true →
        acceptable cfg (generateRegularPathBoundary cfg inp adc .LEFT_BORROW) =
          false →
        acceptable cfg
            (generateRegularPathBoundary cfg inp adc .RIGHT_BORROW) = true →
        processModel cfg inp = .success
          (generateRegularPathBoundary cfg inp adc .RIGHT_BORROW).bounds
          (generateRegularPathBoundary cfg inp adc .RIGHT_BORROW).blockingId) ∧
      (acceptable cfg (generateRegularPathBoundary cfg inp adc .NO_BORROW) =
          false →
        (cfg.laneBorrowEnabled = false ∨
          (acceptable cfg
              (generateRegularPathBoundary cfg inp adc .LEFT_BORROW) = false ∧
           acceptable cfg
              (generateRegularPathBoundary cfg inp adc .RIGHT_BORROW) =
                false)) →
        ((generateFallbackPathBoundary cfg inp adc).msg = "" →
          processModel cfg inp = .success
            (generateFallbackPathBoundary cfg inp adc).bounds
            (generateFallbackPathBoundary cfg inp adc).blockingId) ∧
        ((generateFallbackPathBoundary cfg inp adc).msg ≠ "" →
          processModel cfg inp =
            .failure (generateFallbackPathBoundary cfg inp adc).msg))) ∧
    (∀ adc borrow,
      (generateRegularPathBoundary cfg inp adc borrow).msg ≠ "" →
      (generateRegularPathBoundary cfg inp adc borrow).bounds = []) ∧
    (∀ adc, (generateFallbackPathBoundary cfg inp adc).msg ≠ "" →
      (generateFallbackPathBoundary cfg inp adc).bounds = []) ∧
    (∀ r, processModel cfg inp = .failure r → r ≠ "") := by
  refine ⟨?_, ?_, ?_, ?_, ?_⟩
  · intro h
    rw [processModel, h]
  · intro adc hadc
    refine ⟨?_, ?_, ?_, ?_⟩
    · intro hnb
      rw [processModel, hadc]
      dsimp only
      rw [if_pos hnb]
    · intro hnb hbor hlb
      rw [processModel, hadc]
      dsimp only
      rw [if_neg (by rw [hnb]; exact Bool.false_ne_true)]
      rw [if_pos (by rw [hbor, hlb]; rfl)]
    · intro hnb hbor hlb hrb
      rw [processModel, hadc]
      dsimp only
      rw [if_neg (by rw [hnb]; exact Bool.false_ne_true)]
      rw [if_neg (by rw [hlb]; simp)]
      rw [if_pos (by rw [hbor, hrb]; rfl)]
    · intro hnb hrest
      have h2 : ¬((cfg.laneBorrowEnabled && acceptable cfg
          (generateRegularPathBoundary cfg inp adc .LEFT_BORROW)) = true) := by
        rcases hrest with h | h
        · rw [h]; simp
        · rw [h.1]; simp
      have h3 : ¬((cfg.laneBorrowEnabled && acceptable cfg
          (generateRegularPathBoundary cfg inp adc .RIGHT_BORROW)) = true) := by
        rcases hrest with h | h
        · rw [h]; simp
        · rw [h.2]; simp
      constructor
      · intro hfb
        rw [processModel, hadc]
        dsimp only
        rw [if_neg (by rw [hnb]; exact Bool.false_ne_true), if_neg h2,
          if_neg h3, if_pos hfb]
      · intro hfb
        rw [processModel, hadc]
        dsimp only
        rw [if_neg (by rw [hnb]; exact Bool.false_ne_true), if_neg h2,
          if_neg h3, if_neg hfb]
  · intro adc borrow hmsg
    rcases generateRegular_cases cfg inp adc borrow with h | h
    · exact absurd h hmsg
    · exact h
  · intro adc hmsg
    rcases generateFallback_cases cfg inp adc with h | h
    · exact absurd h hmsg
    · exact h
  · intro r hr
    rw [processModel] at hr
    split at hr
    · injection hr with h
      rw [← h]
      simp
    · dsimp only at hr
      split at hr
      · exact absurd hr (by simp)
      · split at hr
        · exact absurd hr (by simp)
        · split at hr
          · exact absurd hr (by simp)
          · split at hr
            · exact absurd hr (by simp)
            · rename_i hmsg
              injection hr with h
              rw [← h]
              exact hmsg

/-- C9: one full decider invocation, as well as the regular and fallback
generation steps, leave the shared per-cycle inputs (ADC Frenet state,
obstacle snapshot, lane geometry, reference curve) unchanged: only the result
slot of the cycle state is written. -/
theorem c9_frame_readonly (cfg : Config) (st : CycleState)
    (adc : ADCFrenetState) (borrow : LaneBorrowInfo) :
    (runCycle cfg st).inp = st.inp ∧
    (runRegularOp cfg adc borrow st).1 = st ∧
    (runFallbackOp cfg adc st).1 = st :=
  ⟨rfl, rfl, rfl⟩

/-- C2 (amended): `GetBoundaryFromLanesAndADC` establishes containment of the
ego's lateral position at the station nearest the ego's `s` by construction,
for every borrow mode, and therefore every accepted fallback boundary (lane
and ADC containment only) contains the ego's lateral position; the obstacle
sweep of the regular pipeline, however, may later exclude the ego's lateral
position at that station (see the counterexample). -/
theorem c2_containment_amended (cfg : Config) (inp : DeciderInput)
    (adc : ADCFrenetState) (hbuf : 0 ≤ cfg.adcBuffer) :
    ((generateFallbackPathBoundary cfg inp adc).msg = "" →
      egoContained adc.s adc.l
        (generateFallbackPathBoundary cfg inp adc).bounds = true) ∧
    (∀ (lane : ℕ → Option (ℚ × ℚ)) (adjL adjR buffer : ℚ)
      (borrow : LaneBorrowInfo) (b b1 : List Station), 0 ≤ buffer → b ≠ [] →
      getBoundaryFromLanesAndADC lane adjL adjR borrow buffer adc b =
        some b1 → egoContained adc.s adc.l b1 = true) := by
  constructor
  · intro hmsg
    rw [generateFallbackPathBoundary] at hmsg ⊢
    split at hmsg
    · exact absurd hmsg (by decide)
    · rename_i b0 hinit
      split at hmsg
      · exact absurd hmsg (by decide)
      · rename_i b1 hlanes
        have hb0ne : b0 ≠ [] :=
          List.length_pos.mp (initPathBoundary_shape hinit).1
        exact lanesADC_contains_adc hbuf hb0ne hlanes
  · intro lane adjL adjR buffer borrow b b1 hbuf' hbne h
    exact lanesADC_contains_adc hbuf' hbne h

/-- Concrete lane geometry: a straight lane with edges at `±2` m at every
station. -/
def laneC : ℕ → Option (ℚ × ℚ) := fun _ => some (2, -2)

/-- Concrete configuration for the witness scenarios. -/
def cfgC : Config := ⟨1, 1, false, 1, 0⟩

/-- Concrete ego state: at `s = 0`, centered in the lane. -/
def adcC : ADCFrenetState := ⟨0, 0, 0, 0, 4⟩

/-- An obstacle over the lane center at the ego's own station. -/
def obsC : ObstacleFootprint := ⟨"obs1", 0, 2, -1, 1⟩

/-- Input whose obstacle covers the ego's station laterally. -/
def inpC : DeciderInput := ⟨some adcC, 4, laneC, 0, 0, [obsC]⟩

/-- The regular boundary the model produces for `inpC`: the pass-left choice
at the ego's station pushes `l_min` to `1`, above the ego's `l = 0`. -/
def boundsC : List Station :=
  [⟨0, 1, 2⟩, ⟨1, 1, 2⟩, ⟨2, 1, 2⟩, ⟨3, -2, 2⟩, ⟨4, -2, 2⟩]

/-- C2 (counterexample): the accepted regular boundary for `inpC` does not
contain the ego's lateral position at the station nearest the ego's `s`: the
obstacle sweep narrowed the ego's own station past `adc_l` without collapsing
the corridor, so containment does not hold for every accepted boundary. -/
theorem c2_containment_counterexample :
    processModel cfgC inpC = .success boundsC "" ∧
    egoContained adcC.s adcC.l boundsC = false :=
  ⟨by with_unfolding_all rfl, by with_unfolding_all rfl⟩

/-- Witness for C1: the concrete accepted boundary is non-crossed at every
station, obtained by instantiating the invariant theorem. -/
theorem c1_noncrossing_invariant_witness :
    processModel cfgC inpC = .success boundsC "" ∧
    ∀ st ∈ boundsC, st.lMin ≤ st.lMax := by
  refine ⟨by with_unfolding_all rfl, ?_⟩
  intro st hst
  refine c1_noncrossing_invariant cfgC inpC ?_ le_rfl le_rfl boundsC ""
    (by with_unfolding_all rfl) st hst
  intro i le re h
  injection h with h'
  injection h' with h1 h2
  rw [← h1, ← h2]
  norm_num [maxLateral]

/-- Witness for the amended C2 at the concrete scenario: the fallback
boundary contains the ego's lateral position. -/
theorem c2_containment_amended_witness :
    (0 : ℚ) ≤ cfgC.adcBuffer ∧
    egoContained adcC.s adcC.l
      (generateFallbackPathBoundary cfgC inpC adcC).bounds = true :=
  ⟨by decide,
   (c2_containment_amended cfgC inpC adcC (by decide)).1
     (by with_unfolding_all rfl)⟩

/-- A small boundary for the update witness. -/
def bSmall : List Station := [⟨0, -1, 1⟩, ⟨1, -1, 1⟩, ⟨2, -1, 1⟩]

/-- Witness for C3 at a concrete index and bounds. -/
theorem c3_update_boundary_contract_witness :
    (1 < bSmall.length) ∧
    (updatePathBoundaryAndCenterLine 1 1 (-1) bSmall 0).1[1]? =
      some ⟨1, -1, 1⟩ :=
  ⟨by decide,
   (c3_update_boundary_contract 1 1 (-1) bSmall 0 (by decide)).1⟩

/-- Witness for C4: the empty group yields the no-constraint identity. -/
theorem c4_decide_pass_directions_contract_witness :
    ((-1 : ℚ) ≤ 1) ∧ decidePassDirections (-1 : ℚ) 1 [] = [[]] :=
  ⟨by decide,
   (c4_decide_pass_directions_contract (-1) 1 []).2.2.1 rfl (by decide)⟩

/-- Two concrete obstacles for the sort witness. -/
def fpA : ObstacleFootprint := ⟨"a", 5, 6, 0, 1⟩

/-- Second concrete obstacle for the sort witness. -/
def fpB : ObstacleFootprint := ⟨"b", 5, 7, 0, 1⟩

/-- Witness for C5: both input orders produce the identical event sequence. -/
theorem c5_sort_obstacles_deterministic_witness :
    sortObstaclesForSweepLine [fpA, fpB] =
      sortObstaclesForSweepLine [fpB, fpA] :=
  (c5_sort_obstacles_deterministic [fpA, fpB] [fpB, fpA] (by decide)
    (by decide)).1

/-- An obstacle spanning the full lane width at `s ∈ [2, 3]`. -/
def obsB : ObstacleFootprint := ⟨"obsB", 2, 3, -3, 3⟩

/-- A lane-stage boundary of five stations with edges `±2`. -/
def laneBounds : List Station :=
  [⟨0, -2, 2⟩, ⟨1, -2, 2⟩, ⟨2, -2, 2⟩, ⟨3, -2, 2⟩, ⟨4, -2, 2⟩]

/-- Witness for C6 at the blocked scenario: blockage at station 2, two
committed stations, blocking id among the snapshot ids, trim keeps two
stations. -/
theorem c6_blocked_outcome_contract_witness :
    (getBoundaryFromStaticObstacles [obsB] laneBounds).blockedIdx = some 2 ∧
    (getBoundaryFromStaticObstacles [obsB] laneBounds).bounds.length = 2 ∧
    (getBoundaryFromStaticObstacles [obsB] laneBounds).blockingId ∈
      ([obsB].map ObstacleFootprint.id) ∧
    (trimPathBounds 2 laneBounds).length = 2 :=
  ⟨by with_unfolding_all rfl,
   (c6_blocked_outcome_contract.2.1 [obsB] laneBounds 2
     (by with_unfolding_all rfl)).1,
   c6_blocked_outcome_contract.2.2 [obsB] laneBounds 2 (by decide)
     (by with_unfolding_all rfl),
   (c6_blocked_outcome_contract.1 2 laneBounds (by decide)).1⟩

/-- Witness for C7: the constructed vector holds exactly one candidate. -/
theorem c7_construct_single_pass_witness :
    (constructSubsequentPathBounds (sortObstaclesForSweepLine [obsB]) 1 0 []
      laneBounds).length = 1 :=
  (c7_construct_single_pass (sortObstaclesForSweepLine [obsB]) 1 0 []
    laneBounds (by decide)).1

/-- Witness for C8: at the concrete input the NoBorrow attempt is acceptable
and the orchestrator returns it. -/
theorem c8_orchestrator_order_witness :
    acceptable cfgC (generateRegularPathBoundary cfgC inpC adcC .NO_BORROW) =
      true ∧
    processModel cfgC inpC = .success
      (generateRegularPathBoundary cfgC inpC adcC .NO_BORROW).bounds
      (generateRegularPathBoundary cfgC inpC adcC .NO_BORROW).blockingId :=
  ⟨by with_unfolding_all rfl,
   ((c8_orchestrator_order cfgC inpC).2.1 adcC rfl).1
     (by with_unfolding_all rfl)⟩

end PathBoundsDecider
